import Mathlib

/-
Verification development for the Forecaster repository.

The embedding covers:
  * the disk-backed fallback HTTP cache (13f parser/fallback_cache.py):
    header dictionaries, header sanitization, the cache entry data model,
    the conditional-GET logic of cached_get, and the atomic two-file store;
  * the asynchronous news crawler (i need news/new_loader.py):
    the per-attempt retry/backoff classification of _fetch_one, the
    full retry loop, and the aggregation step of load_news_async;
  * 13F position merging (13f parser/stock.py): Stock.merge,
    group_and_merge and total_value.

Python dictionaries are modelled as insertion-ordered association lists
with exact string keys (the keys of a Python dict are unique, which shows
up below as Nodup hypotheses where it matters).  Decimal arithmetic is
modelled as exact rational arithmetic.  External collaborators (httpx
network calls, trafilatura/BeautifulSoup extraction, urlparse) are
parameters of the model.
-/

set_option maxHeartbeats 1000000

namespace Forecaster

/-- Bytes of an HTTP body. -/
abbrev Bytes := List Nat

/-- A Python dict of HTTP headers: insertion-ordered list of key/value pairs. -/
abbrev Headers := List (String × String)

/-- Python str.lower(), character by character. -/
def strLower (s : String) : String :=
  String.mk (s.data.map Char.toLower)

/-- Containment of pat in l, used for Python's substring test. -/
def containsSub (l pat : List Char) : Bool :=
  pat.isPrefixOf l ||
    match l with
    | [] => false
    | _ :: t => containsSub t pat

/-- Python substring test: pat in s. -/
def strContains (s pat : String) : Bool :=
  containsSub s.data pat.data

/-- Python str.lstrip(): drop leading whitespace. -/
def lstrip (s : String) : String :=
  String.mk (s.data.dropWhile Char.isWhitespace)

/-- Python s.startswith(pat). -/
def strStartsWith (s pat : String) : Bool :=
  pat.data.isPrefixOf s.data

/-- Python d.get(k): value of the first (unique) entry with key exactly k. -/
def dictGet (h : Headers) (k : String) : Option String :=
  match h with
  | [] => none
  | (k2, v) :: t => if k2 = k then some v else dictGet t k

/-- Python d[k] = v: replace the entry with key k in place, else append. -/
def dictSet (h : Headers) (k v : String) : Headers :=
  match h with
  | [] => [(k, v)]
  | (k2, v2) :: t => if k2 = k then (k, v) :: t else (k2, v2) :: dictSet t k v

/-- Python d.pop(k, None): drop the entry with key exactly k. -/
def dictPop (h : Headers) (k : String) : Headers :=
  match h with
  | [] => []
  | (k2, v2) :: t => if k2 = k then t else (k2, v2) :: dictPop t k

/-- The six literal header keys popped by fallback_cache._sanitize_headers. -/
def sanitizeKeys : List String :=
  ["Content-Encoding", "content-encoding",
   "Transfer-Encoding", "transfer-encoding",
   "Content-Length", "content-length"]

/-- fallback_cache._sanitize_headers: copy the dict and pop the six keys. -/
def sanitize_headers (h : Headers) : Headers :=
  sanitizeKeys.foldl dictPop h

/-- Case-insensitive lookup, as httpx performs on its Headers objects. -/
def headerGetCI (h : Headers) (k : String) : Option String :=
  match h with
  | [] => none
  | (k2, v) :: t => if strLower k2 = strLower k then some v else headerGetCI t k

/-- Keys of an httpx Headers object as seen through dict(resp.headers): lowercased. -/
def lowerKeys (h : Headers) : Headers :=
  h.map (fun p => (strLower p.1, p.2))

/-- The metadata record stored in the key.meta.json file by fallback_cache._store. -/
structure CacheMeta where
  url : String
  stored_at : Int
  headers : Headers
  etag : Option String
  last_modified : Option String
  status : Nat
deriving DecidableEq, Repr

/-- A fully loaded cache entry: metadata record plus raw body bytes. -/
structure CacheEntry where
  meta : CacheMeta
  data : Bytes
deriving DecidableEq, Repr

/-- An httpx response as observed by fallback_cache: status, headers, decoded
body bytes, plus the from_cache extension flag set on reconstructed responses. -/
structure HTTPResponse where
  status_code : Nat
  headers : Headers
  content : Bytes
  from_cache : Bool
deriving DecidableEq, Repr

/-- Outcome of one client.get call: a response, or a raised exception
(transport failure or any other error inside the call). -/
inductive NetResult where
  | ok (resp : HTTPResponse)
  | exn
deriving DecidableEq, Repr

/-- The cache entry fallback_cache._store writes for a 200 response: headers
are stored as dict(resp.headers) (lowercased keys, httpx semantics), and
etag/last_modified come from case-insensitive header lookups. -/
def storeEntry (now : Int) (url : String) (resp : HTTPResponse) : CacheEntry :=
  { meta := { url := url
              stored_at := now
              headers := lowerKeys resp.headers
              etag := headerGetCI resp.headers "ETag"
              last_modified := headerGetCI resp.headers "Last-Modified"
              status := resp.status_code }
    data := resp.content }

/-- fallback_cache._build_response_from_cache: a synthetic 200 response carrying
the cached body, with the stored headers sanitized and from_cache set. -/
def build_response_from_cache (meta : CacheMeta) (data : Bytes) : HTTPResponse :=
  { status_code := 200
    headers := sanitize_headers meta.headers
    content := data
    from_cache := true }

/-- The conditional request headers built by cached_get when a cache entry is
present: a copy of the caller's extra headers, then If-None-Match from the
stored etag and If-Modified-Since from the stored last_modified, each
assigned last (Python truthiness: None and the empty string add nothing). -/
def condHeaders (meta : CacheMeta) (extra : Headers) : Headers :=
  let h1 := match meta.etag with
    | some e => if e = "" then extra else dictSet extra "If-None-Match" e
    | none => extra
  match meta.last_modified with
    | some lm => if lm = "" then h1 else dictSet h1 "If-Modified-Since" lm
    | none => h1

/-- Result of one cached_get call: the returned response together with the
cache entry for the URL after the call. -/
structure FetchOut where
  resp : HTTPResponse
  cacheAfter : Option CacheEntry
deriving DecidableEq, Repr

/-- fallback_cache.cached_get.  The network is a function from the request
headers actually sent to a NetResult; cache is the _load result for the URL;
Except.error models an exception propagating out of cached_get. -/
def cached_get (net : Headers → NetResult) (now : Int) (url : String)
    (ttl : Option Int) (extra : Headers) (cache : Option CacheEntry) :
    Except Unit FetchOut :=
  match cache with
  | some entry =>
      let ch := condHeaders entry.meta extra
      match net ch with
      | NetResult.ok resp =>
          if resp.status_code = 304 then
            Except.ok { resp := build_response_from_cache entry.meta entry.data
                        cacheAfter := some entry }
          else if resp.status_code = 200 then
            Except.ok { resp := resp, cacheAfter := some (storeEntry now url resp) }
          else
            Except.ok { resp := resp, cacheAfter := some entry }
      | NetResult.exn =>
          match ttl with
          | none =>
              Except.ok { resp := build_response_from_cache entry.meta entry.data
                          cacheAfter := some entry }
          | some t =>
              if now - entry.meta.stored_at ≤ t then
                Except.ok { resp := build_response_from_cache entry.meta entry.data
                            cacheAfter := some entry }
              else
                Except.error ()
  | none =>
      match net extra with
      | NetResult.ok resp =>
          if resp.status_code = 200 then
            Except.ok { resp := resp, cacheAfter := some (storeEntry now url resp) }
          else
            Except.ok { resp := resp, cacheAfter := none }
      | NetResult.exn => Except.error ()

/-
Filesystem model for the atomicity of _load/_store: the four files of one
cache key.  A file is none when absent; some none when present but
unreadable (read or JSON parse raises); some (some v) when present with
readable content v.
-/

/-- The four files of one cache key: key.meta.json, key.data and their
temporary counterparts key.meta.tmp and key.tmp. -/
structure CacheFS where
  metaFile : Option (Option CacheMeta)
  dataFile : Option (Option Bytes)
  tmpMetaFile : Option (Option CacheMeta)
  tmpDataFile : Option (Option Bytes)
deriving DecidableEq, Repr

/-- fallback_cache._load: None unless both key.meta.json and key.data exist;
reading or parsing raising is caught and also yields None. -/
def loadEntry (fs : CacheFS) : Option (CacheMeta × Bytes) :=
  match fs.metaFile, fs.dataFile with
  | some (some m), some (some d) => some (m, d)
  | _, _ => none

/-- First write of _store: tmpd.write_bytes(resp.content). -/
def storeStep1 (fs : CacheFS) (d : Bytes) : CacheFS :=
  { fs with tmpDataFile := some (some d) }

/-- Second write of _store: tmpm.write_text(json.dumps(meta)). -/
def storeStep2 (fs : CacheFS) (m : CacheMeta) : CacheFS :=
  { fs with tmpMetaFile := some (some m) }

/-- Third step of _store: os.replace(tmpd, dp), an atomic rename installing
the body (within the _store sequence the tmp file is always present). -/
def storeStep3 (fs : CacheFS) : CacheFS :=
  { fs with dataFile := fs.tmpDataFile, tmpDataFile := none }

/-- Last step of _store: os.replace(tmpm, mp), an atomic rename installing
the metadata, after the body. -/
def storeStep4 (fs : CacheFS) : CacheFS :=
  { fs with metaFile := fs.tmpMetaFile, tmpMetaFile := none }

/-- fallback_cache._store: temp writes, then atomic body replace, then atomic
metadata replace. -/
def storeFS (fs : CacheFS) (m : CacheMeta) (d : Bytes) : CacheFS :=
  storeStep4 (storeStep3 (storeStep2 (storeStep1 fs d) m))

/-
Model of the news crawler (i need news/new_loader.py).  The network is a
function from attempt index to the outcome of that attempt's client.get;
HTML parsing (_parse_html_and_title's thread-pool work) and
urlparse(...).netloc are external collaborators passed as parameters.
-/

/-- Outcome of one client.get inside _fetch_one: a response (status code,
Content-Type header value, decoded text), a connect/read timeout, another
httpx.HTTPError, or any other exception. -/
inductive AttemptOutcome where
  | resp (status_code : Nat) (content_type : String) (body : String)
  | timeout
  | httpError
  | otherExn
deriving DecidableEq, Repr

/-- The per-URL dict returned by _fetch_one. -/
structure NewsRecord where
  url : String
  clean_text : Option String
  title : Option String
  domain : String
deriving DecidableEq, Repr

/-- The failure dict built on every non-success exit of _fetch_one. -/
def failRecord (netloc : String → String) (link : String) : NewsRecord :=
  { url := link, clean_text := none, title := none, domain := netloc link }

/-- One step: retry after a backoff delay, or return a record (terminal). -/
inductive StepResult where
  | retryAfter (delay : ℚ)
  | done (rec : NewsRecord)
deriving DecidableEq, Repr

/-- The body of _fetch_one's retry loop at a given attempt index, given that
attempt's outcome.  parse models _parse_html_and_title's work function,
returning (clean_text, title, domain). -/
def fetchStep (parse : String → String → Option String × Option String × String)
    (netloc : String → String) (link : String)
    (max_retries : Nat) (backoff_base : ℚ)
    (attempt : Nat) (o : AttemptOutcome) : StepResult :=
  match o with
  | AttemptOutcome.resp status ct body =>
      if status ≠ 200 then
        if 500 ≤ status ∧ status < 600 ∧ attempt < max_retries - 1 then
          StepResult.retryAfter (backoff_base * 2 ^ attempt)
        else
          StepResult.done (failRecord netloc link)
      else if ¬ strContains (strLower ct) "html" ∧ ¬ strStartsWith (lstrip body) "<" then
        StepResult.done (failRecord netloc link)
      else
        match parse body link with
        | (clean, title, domain) =>
            StepResult.done { url := link, clean_text := clean, title := title, domain := domain }
  | AttemptOutcome.timeout =>
      if attempt < max_retries - 1 then StepResult.retryAfter (backoff_base * 2 ^ attempt)
      else StepResult.done (failRecord netloc link)
  | AttemptOutcome.httpError =>
      if attempt < max_retries - 1 then StepResult.retryAfter (backoff_base * 2 ^ attempt)
      else StepResult.done (failRecord netloc link)
  | AttemptOutcome.otherExn =>
      if attempt < max_retries - 1 then StepResult.retryAfter (backoff_base * 2 ^ attempt)
      else StepResult.done (failRecord netloc link)

/-- The retry loop of _fetch_one from a given attempt index, with fuel equal
to the remaining iterations of range(max_retries); falling off the loop is
Python's implicit None. -/
def fetchGo (parse : String → String → Option String × Option String × String)
    (netloc : String → String) (net : Nat → AttemptOutcome) (link : String)
    (max_retries : Nat) (backoff_base : ℚ) :
    Nat → Nat → Option NewsRecord
  | _, 0 => none
  | attempt, fuel + 1 =>
      match fetchStep parse netloc link max_retries backoff_base attempt (net attempt) with
      | StepResult.done r => some r
      | StepResult.retryAfter _ =>
          fetchGo parse netloc net link max_retries backoff_base (attempt + 1) fuel

/-- _fetch_one: run the retry loop from attempt 0. -/
def fetch_one (parse : String → String → Option String × Option String × String)
    (netloc : String → String) (net : Nat → AttemptOutcome) (link : String)
    (max_retries : Nat) (backoff_base : ℚ) : Option NewsRecord :=
  fetchGo parse netloc net link max_retries backoff_base 0 max_retries

/-- One GDELT article row as collected by __get_news_links. -/
structure NewsItem where
  url : String
  title : Option String
  domain : Option String
  seendate : Option String
  source : Option String
deriving DecidableEq, Repr

/-- meta_map lookup: the dict comprehension keyed by url keeps the last item
for each url; get with default of the empty dict. -/
def metaMap (items : List NewsItem) (u : String) : Option NewsItem :=
  items.foldl (fun acc it => if it.url = u then some it else acc) none

/-- One merged output object of load_news_async. -/
structure MergedObj where
  url : String
  domain : Option String
  title : Option String
  seendate : Option String
  source : Option String
  clean_text : String
  clean_len : Nat
deriving DecidableEq, Repr

/-- Python x or y for an optional string x: y unless x is a non-empty string. -/
def orOpt (x : Option String) (y : Option String) : Option String :=
  match x with
  | some s => if s = "" then y else some s
  | none => y

/-- The merge step of load_news_async for one fetched record: records whose
clean_text is None are skipped, the rest are joined with the GDELT metadata. -/
def mergeRecord (items : List NewsItem) (rec : NewsRecord) : Option MergedObj :=
  match rec.clean_text with
  | none => none
  | some ct =>
      let base := metaMap items rec.url
      some { url := rec.url
             domain := orOpt (some rec.domain) (base.bind (fun b => b.domain))
             title := orOpt rec.title (base.bind (fun b => b.title))
             seendate := base.bind (fun b => b.seendate)
             source := base.bind (fun b => b.source)
             clean_text := ct
             clean_len := ct.length }

/-- The asyncio.gather stage of load_news_async: one _fetch_one result per
input URL, with the defaults max_retries = 3 and backoff_base = 1. -/
def gatherResults (parse : String → String → Option String × Option String × String)
    (netloc : String → String) (net : String → Nat → AttemptOutcome)
    (items : List NewsItem) : List (Option NewsRecord) :=
  (items.map (fun it => it.url)).map (fun u => fetch_one parse netloc (net u) u 3 1)

/-- load_news_async: gather all fetches, then merge with GDELT metadata,
skipping records with no extracted text. -/
def load_news (parse : String → String → Option String × Option String × String)
    (netloc : String → String) (net : String → Nat → AttemptOutcome)
    (items : List NewsItem) : List MergedObj :=
  (gatherResults parse netloc net items).filterMap
    (fun r => r.bind (mergeRecord items))

/-
Model of 13f parser/stock.py.  Python ints are Int.  Decimal values are
modelled faithfully to Python's decimal module under the default context:
a finite Decimal is a signed integer coefficient together with an exponent
(value = c * 10 ^ e), and addition aligns the operands to the smaller
exponent, sums exactly, and then rounds the coefficient to at most 28
significant digits (context precision) with ROUND_HALF_EVEN, as __add__
followed by _fix does.  The digit-count test of _fix (len of the
coefficient's digits > prec) is written as the equivalent comparison
'coefficient >= 10 ^ prec'.  Exponent clamping at Emin/Emax and the
special values (NaN, infinities) are outside the inputs this program
produces and are not modelled.
-/

/-- A finite Python Decimal: signed coefficient c and exponent e,
denoting c * 10 ^ e. -/
structure Dec where
  c : Int
  e : Int
deriving DecidableEq, Repr

/-- The precision of Python's default Decimal context. -/
def ctxPrec : Nat := 28

/-- How many trailing digits must be rounded away for n to fit in ctxPrec
significant digits: the least s with n / 10 ^ s < 10 ^ ctxPrec (fuel-driven;
the first argument starts at n, which bounds the recursion). -/
def excessDigits : Nat → Nat → Nat
  | 0, _ => 0
  | fuel + 1, n => if n < 10 ^ ctxPrec then 0 else excessDigits fuel (n / 10) + 1

/-- Divide n by 10 ^ d rounding half to even (on the magnitude). -/
def halfEvenDivNat (n d : Nat) : Nat :=
  let q := n / d
  let r := n % d
  if 2 * r < d then q
  else if d < 2 * r then q + 1
  else if q % 2 = 0 then q else q + 1

/-- Divide a signed coefficient by 10 ^ s rounding half to even; Decimal
rounding acts on the magnitude, keeping the sign. -/
def halfEvenDiv (n : Int) (s : Nat) : Int :=
  if 0 ≤ n then Int.ofNat (halfEvenDivNat n.natAbs (10 ^ s))
  else - Int.ofNat (halfEvenDivNat n.natAbs (10 ^ s))

/-- Python Decimal addition under the default context: align to the smaller
exponent, add exactly, then round the coefficient to ctxPrec significant
digits half-even (a carry out of the rounding, coefficient reaching
10 ^ ctxPrec, drops one further exact digit). -/
def Dec.add (x y : Dec) : Dec :=
  let e := min x.e y.e
  let cs := x.c * 10 ^ (x.e - e).toNat + y.c * 10 ^ (y.e - e).toNat
  if cs.natAbs < 10 ^ ctxPrec then { c := cs, e := e }
  else
    let s := excessDigits cs.natAbs cs.natAbs
    let q := halfEvenDiv cs s
    if q.natAbs < 10 ^ ctxPrec then { c := q, e := e + s }
    else { c := q / 10, e := e + s + 1 }

/-- Python's Decimal == : numeric equality of the two values c * 10 ^ e,
decided by rescaling both coefficients to the smaller exponent and
comparing the resulting integers. -/
def Dec.sameVal (x y : Dec) : Bool :=
  let m := min x.e y.e
  x.c * 10 ^ (x.e - m).toNat == y.c * 10 ^ (y.e - m).toNat

/-- stock.VotingAuthority. -/
structure VotingAuthority where
  sole : Int
  shared : Int
  none_count : Int
deriving DecidableEq, Repr

/-- VotingAuthority.merge: fieldwise sums. -/
def VotingAuthority.merge (a b : VotingAuthority) : VotingAuthority :=
  { sole := a.sole + b.sole
    shared := a.shared + b.shared
    none_count := a.none_count + b.none_count }

/-- stock.Stock (the none field of VotingAuthority is rendered none_count). -/
structure Stock where
  issuer : String
  title_of_class : String
  cusip : String
  value_usd : Dec
  shares : Int
  shares_type : String
  investment_discretion : String
  other_manager : List Int
  voting : VotingAuthority
  sector : Option String := none
  industry : Option String := none
  gics_sector_code : Option Int := none
deriving DecidableEq, Repr

/-- Stock.key: the (issuer, titleOfClass, cusip) grouping key. -/
def Stock.key (s : Stock) : String × String × String :=
  (s.issuer, s.title_of_class, s.cusip)

/-- Insert in ascending position. -/
def insertSorted (x : Int) : List Int → List Int
  | [] => [x]
  | y :: ys => if x ≤ y then x :: y :: ys else y :: insertSorted x ys

/-- Python sorted(set(l)) for a list of ints: dedupe then sort ascending. -/
def sortedSet (l : List Int) : List Int :=
  l.dedup.foldr insertSorted []

/-- Stock.merge: sum value (Decimal addition under the default context) and
shares/voting, keep the first truthy shares_type, DFND on differing
discretion, union of other managers; the dataclass constructor leaves the
enrichment fields at their None defaults. -/
def Stock.merge (a b : Stock) : Stock :=
  { issuer := a.issuer
    title_of_class := a.title_of_class
    cusip := a.cusip
    value_usd := Dec.add a.value_usd b.value_usd
    shares := a.shares + b.shares
    shares_type := if a.shares_type = "" then b.shares_type else a.shares_type
    investment_discretion :=
      if a.investment_discretion = b.investment_discretion then a.investment_discretion
      else "DFND"
    other_manager := sortedSet (a.other_manager ++ b.other_manager)
    voting := a.voting.merge b.voting }

/-- One step of group_and_merge's dict accumulation: merge into the existing
slot for the key (keeping its insertion position), else append. -/
def upsert (acc : List Stock) (s : Stock) : List Stock :=
  match acc with
  | [] => [s]
  | t :: rest => if t.key = s.key then t.merge s :: rest else t :: upsert rest s

/-- stock.group_and_merge: fold the stocks through the keyed dict. -/
def group_and_merge (stocks : List Stock) : List Stock :=
  stocks.foldl upsert []

/-- stock.total_value: sum(s.value_usd for ...) with start Decimal("0"),
a left fold of Decimal additions under the default context. -/
def total_value (stocks : List Stock) : Dec :=
  stocks.foldl (fun acc s => Dec.add acc s.value_usd) { c := 0, e := 0 }

/-- The coefficient sum of a list of stocks (the exact total, in units of
the common exponent). -/
def totalC (l : List Stock) : Int :=
  (l.map (fun s => s.value_usd.c)).sum

/-- The sum of coefficient magnitudes of a list of stocks: when it stays
below 10 ^ ctxPrec, no addition over these values can round. -/
def absC (l : List Stock) : Nat :=
  (l.map (fun s => s.value_usd.c.natAbs)).sum

/-- A stock with the given key fields and value, other fields fixed. -/
def mkStockD (issuer cusip : String) (v : Dec) : Stock :=
  { issuer := issuer
    title_of_class := "COM"
    cusip := cusip
    value_usd := v
    shares := 0
    shares_type := "SH"
    investment_discretion := "SOLE"
    other_manager := []
    voting := { sole := 0, shared := 0, none_count := 0 } }

/-- Three positions: 1E+28 and -1E+28 under one key, 1 under another; the
values are producible by _to_decimal (e.g. from the string 1E+28). -/
def stocks10 : List Stock :=
  [mkStockD "A" "X" { c := 1, e := 28 },
   mkStockD "B" "Y" { c := 1, e := 0 },
   mkStockD "A" "X" { c := -1, e := 28 }]

/-- Three small integer-valued positions, two sharing a key. -/
def stocksW : List Stock :=
  [mkStockD "A" "X" { c := 100, e := 0 },
   mkStockD "B" "Y" { c := 5, e := 0 },
   mkStockD "A" "X" { c := 23, e := 0 }]

/- Concrete inputs used by witnesses and counterexamples. -/

/-- A concrete stored metadata record: etag E, stored at epoch second 100. -/
def metaA : CacheMeta :=
  { url := "https://example.org/x"
    stored_at := 100
    headers := [("content-encoding", "gzip"), ("etag", "E")]
    etag := some "E"
    last_modified := some "Mon, 01 Jan 2024 00:00:00 GMT"
    status := 200 }

/-- A concrete cache entry with body bytes [1, 2, 3]. -/
def entryA : CacheEntry :=
  { meta := metaA, data := [1, 2, 3] }

/-- A network that always raises a transport error. -/
def netExn : Headers → NetResult := fun _ => NetResult.exn

/-- A network that always answers 304 Not Modified. -/
def net304 : Headers → NetResult :=
  fun _ => NetResult.ok { status_code := 304, headers := [], content := [], from_cache := false }

/-- A network that always answers 404. -/
def net404 : Headers → NetResult :=
  fun _ => NetResult.ok { status_code := 404, headers := [], content := [], from_cache := false }

/-- An echo network: answers 204 with the request headers it received. -/
def netEcho : Headers → NetResult :=
  fun hs => NetResult.ok { status_code := 204, headers := hs, content := [], from_cache := false }

/-- A parser collaborator that always extracts the same text. -/
def parse0 : String → String → Option String × Option String × String :=
  fun _ _ => (some "CLEANTEXT", some "T", "dom")

/-- A netloc collaborator returning the link itself. -/
def netloc0 : String → String := fun s => s

/-- A crawl network where URL a answers 200 with HTML and every other URL
deterministically answers 500 on every attempt. -/
def net0 : String → Nat → AttemptOutcome :=
  fun u _ =>
    if u = "a" then AttemptOutcome.resp 200 "text/html" "<p>x</p>"
    else AttemptOutcome.resp 500 "" ""

/-- Two crawl items: URL a (succeeds) and URL b (always 500). -/
def items0 : List NewsItem :=
  [{ url := "a", title := none, domain := some "da", seendate := none, source := none },
   { url := "b", title := none, domain := none, seendate := none, source := none }]

/-- An empty cache-key filesystem. -/
def fs0 : CacheFS :=
  { metaFile := none, dataFile := none, tmpMetaFile := none, tmpDataFile := none }

/- Helper lemmas about the Python-dict operations. -/

theorem dictGet_dictSet_self (h : Headers) (k v : String) :
    dictGet (dictSet h k v) k = some v := by
  induction h with
  | nil => simp [dictSet, dictGet]
  | cons p t ih =>
      obtain ⟨k2, v2⟩ := p
      by_cases hk : k2 = k
      · simp [dictSet, hk, dictGet]
      · simp [dictSet, hk, dictGet, ih]

theorem dictGet_dictSet_ne (h : Headers) (k k2 v : String) (hne : k2 ≠ k) :
    dictGet (dictSet h k2 v) k = dictGet h k := by
  induction h with
  | nil => simp [dictSet, dictGet, hne]
  | cons p t ih =>
      obtain ⟨k3, v3⟩ := p
      by_cases hk : k3 = k2
      · simp [dictSet, hk, dictGet, hne]
      · simp only [dictSet, hk, if_false, dictGet]
        by_cases hk3 : k3 = k
        · simp [hk3]
        · simp [hk3, ih]

theorem dictGet_eq_none_of_not_mem (h : Headers) (k : String)
    (hk : k ∉ h.map Prod.fst) : dictGet h k = none := by
  induction h with
  | nil => rfl
  | cons p t ih =>
      obtain ⟨k2, v2⟩ := p
      simp only [List.map_cons, List.mem_cons, not_or] at hk
      have hne : ¬ k2 = k := fun hh => hk.1 hh.symm
      simp [dictGet, hne, ih hk.2]

theorem dictPop_sublist (h : Headers) (k : String) : List.Sublist (dictPop h k) h := by
  induction h with
  | nil => simp [dictPop]
  | cons p t ih =>
      obtain ⟨k2, v2⟩ := p
      by_cases hk : k2 = k
      · rw [dictPop, if_pos hk]
        exact List.sublist_cons_self (k2, v2) t
      · simpa [dictPop, hk] using ih.cons₂ (k2, v2)

theorem nodup_keys_dictPop (h : Headers) (k : String)
    (hnd : (h.map Prod.fst).Nodup) : ((dictPop h k).map Prod.fst).Nodup :=
  hnd.sublist ((dictPop_sublist h k).map Prod.fst)

theorem dictGet_dictPop_self (h : Headers) (k : String)
    (hnd : (h.map Prod.fst).Nodup) : dictGet (dictPop h k) k = none := by
  induction h with
  | nil => rfl
  | cons p t ih =>
      obtain ⟨k2, v2⟩ := p
      simp only [List.map_cons, List.nodup_cons] at hnd
      by_cases hk : k2 = k
      · subst hk
        simpa [dictPop] using dictGet_eq_none_of_not_mem t k2 hnd.1
      · simp [dictPop, hk, dictGet, ih hnd.2]

theorem dictGet_dictPop_none (h : Headers) (k k2 : String)
    (h0 : dictGet h k = none) : dictGet (dictPop h k2) k = none := by
  induction h with
  | nil => rfl
  | cons p t ih =>
      obtain ⟨k3, v3⟩ := p
      by_cases hk3 : k3 = k
      · simp [dictGet, hk3] at h0
      · simp only [dictGet, hk3, if_false] at h0
        by_cases hk : k3 = k2
        · simpa [dictPop, hk] using h0
        · simp [dictPop, hk, dictGet, hk3, ih h0]

theorem dictGet_foldl_pop_none (keys : List String) (h : Headers) (k : String)
    (h0 : dictGet h k = none) : dictGet (keys.foldl dictPop h) k = none := by
  induction keys generalizing h with
  | nil => simpa using h0
  | cons k0 rest ih => exact ih (dictPop h k0) (dictGet_dictPop_none h k k0 h0)

theorem dictGet_foldl_pop_mem (keys : List String) (h : Headers) (k : String)
    (hnd : (h.map Prod.fst).Nodup) (hk : k ∈ keys) :
    dictGet (keys.foldl dictPop h) k = none := by
  induction keys generalizing h with
  | nil => cases hk
  | cons k0 rest ih =>
      rcases List.mem_cons.mp hk with h1 | h2
      · subst h1
        exact dictGet_foldl_pop_none rest (dictPop h k) k
          (dictGet_dictPop_self h k hnd)
      · exact ih (dictPop h k0) (nodup_keys_dictPop h k0 hnd) h2

/- Helper lemmas about the retry loop and the aggregation step. -/

theorem fetchStep_retry_lt
    (parse : String → String → Option String × Option String × String)
    (netloc : String → String) (link : String) (mr : Nat) (bb : ℚ)
    (attempt : Nat) (o : AttemptOutcome) (d : ℚ)
    (h : fetchStep parse netloc link mr bb attempt o = StepResult.retryAfter d) :
    attempt < mr - 1 := by
  cases o with
  | resp s ct b =>
      simp only [fetchStep] at h
      by_cases h1 : s ≠ 200
      · rw [if_pos h1] at h
        by_cases h2 : 500 ≤ s ∧ s < 600 ∧ attempt < mr - 1
        · exact h2.2.2
        · rw [if_neg h2] at h
          exact absurd h (by simp)
      · rw [if_neg h1] at h
        by_cases h3 : ¬ strContains (strLower ct) "html" ∧ ¬ strStartsWith (lstrip b) "<"
        · rw [if_pos h3] at h
          exact absurd h (by simp)
        · rw [if_neg h3] at h
          exact absurd h (by cases hp : parse b link with | mk c r => cases r; simp [hp])
  | timeout =>
      simp only [fetchStep] at h
      by_cases h1 : attempt < mr - 1
      · exact h1
      · rw [if_neg h1] at h
        exact absurd h (by simp)
  | httpError =>
      simp only [fetchStep] at h
      by_cases h1 : attempt < mr - 1
      · exact h1
      · rw [if_neg h1] at h
        exact absurd h (by simp)
  | otherExn =>
      simp only [fetchStep] at h
      by_cases h1 : attempt < mr - 1
      · exact h1
      · rw [if_neg h1] at h
        exact absurd h (by simp)

theorem fetchGo_isSome
    (parse : String → String → Option String × Option String × String)
    (netloc : String → String) (net : Nat → AttemptOutcome) (link : String)
    (mr : Nat) (bb : ℚ) :
    ∀ fuel attempt, attempt + fuel = mr → 0 < fuel →
      (fetchGo parse netloc net link mr bb attempt fuel).isSome := by
  intro fuel
  induction fuel with
  | zero => intro attempt _ h0; cases h0
  | succ f ih =>
      intro attempt hsum _
      unfold fetchGo
      cases hstep : fetchStep parse netloc link mr bb attempt (net attempt) with
      | done r => simp
      | retryAfter d =>
          simp only []
          have hlt := fetchStep_retry_lt parse netloc link mr bb attempt (net attempt) d hstep
          exact ih (attempt + 1) (by omega) (by omega)

theorem fetch_one_isSome
    (parse : String → String → Option String × Option String × String)
    (netloc : String → String) (net : Nat → AttemptOutcome) (link : String)
    (mr : Nat) (bb : ℚ) (hmr : 0 < mr) :
    (fetch_one parse netloc net link mr bb).isSome :=
  fetchGo_isSome parse netloc net link mr bb mr 0 (by omega) hmr

theorem mergeRecord_isSome_iff (items : List NewsItem) (rec : NewsRecord) :
    (mergeRecord items rec).isSome = rec.clean_text.isSome := by
  cases h : rec.clean_text <;> simp [mergeRecord, h]

theorem filterMap_merge_length (items : List NewsItem)
    (l : List (Option NewsRecord)) :
    (l.filterMap (fun r => r.bind (mergeRecord items))).length
      = ((l.filterMap id).filter (fun rec => rec.clean_text.isSome)).length := by
  induction l with
  | nil => rfl
  | cons r t ih =>
      cases r with
      | none => simpa [List.filterMap_cons] using ih
      | some rec =>
          cases h : rec.clean_text with
          | none =>
              have hm : mergeRecord items rec = none := by
                simp [mergeRecord, h]
              simp [List.filterMap_cons, List.filter_cons, hm, h, ih]
          | some ct =>
              have hm : (mergeRecord items rec).isSome := by
                simp [mergeRecord, h]
              obtain ⟨m, hm2⟩ := Option.isSome_iff_exists.mp hm
              simp [List.filterMap_cons, List.filter_cons, hm2, h, ih]

/- Helper lemmas about stock merging under Decimal context arithmetic.
When two Decimals share an exponent and the exact coefficient sum stays
below 10 ^ ctxPrec, Dec.add performs no rounding. -/

theorem totalC_cons (t : Stock) (l : List Stock) :
    totalC (t :: l) = t.value_usd.c + totalC l := by
  simp [totalC]

theorem absC_cons (t : Stock) (l : List Stock) :
    absC (t :: l) = t.value_usd.c.natAbs + absC l := by
  simp [absC]

theorem Dec.add_same_exp (x y : Dec) (e0 : Int) (hx : x.e = e0) (hy : y.e = e0)
    (hb : (x.c + y.c).natAbs < 10 ^ ctxPrec) :
    Dec.add x y = { c := x.c + y.c, e := e0 } := by
  obtain ⟨xc, xe⟩ := x
  obtain ⟨yc, ye⟩ := y
  simp only at hx hy
  subst hx
  subst hy
  simp only at hb
  simp [Dec.add, hb]

theorem Dec.add_zero_start (y : Dec) (e0 : Int) (hy : y.e = e0) (he0 : e0 ≤ 0)
    (hb : y.c.natAbs < 10 ^ ctxPrec) :
    Dec.add { c := 0, e := 0 } y = { c := y.c, e := e0 } := by
  obtain ⟨yc, ye⟩ := y
  simp only at hy
  subst hy
  simp only at hb
  simp [Dec.add, min_eq_right he0, hb]

theorem natAbs_mem_le_absC (l : List Stock) (t : Stock) (ht : t ∈ l) :
    t.value_usd.c.natAbs ≤ absC l := by
  induction l with
  | nil => cases ht
  | cons a rest ih =>
      rw [absC_cons]
      rcases List.mem_cons.mp ht with h1 | h2
      · subst h1; exact Nat.le_add_right _ _
      · exact le_trans (ih h2) (Nat.le_add_left _ _)

theorem upsert_exact (e0 : Int) (acc : List Stock) (s : Stock)
    (He : ∀ t ∈ acc, t.value_usd.e = e0) (Hs : s.value_usd.e = e0)
    (Hb : absC acc + s.value_usd.c.natAbs < 10 ^ ctxPrec) :
    (∀ t ∈ upsert acc s, t.value_usd.e = e0) ∧
    totalC (upsert acc s) = totalC acc + s.value_usd.c ∧
    absC (upsert acc s) ≤ absC acc + s.value_usd.c.natAbs := by
  induction acc with
  | nil =>
      refine ⟨?_, by simp [upsert, totalC], by simp [upsert, absC]⟩
      intro t ht
      simp only [upsert, List.mem_singleton] at ht
      subst ht
      exact Hs
  | cons t0 rest ih =>
      have het0 : t0.value_usd.e = e0 := He t0 (List.mem_cons_self t0 rest)
      have habs0 : t0.value_usd.c.natAbs ≤ absC (t0 :: rest) := by
        rw [absC_cons]; exact Nat.le_add_right _ _
      by_cases hk : t0.key = s.key
      · have htri := Int.natAbs_add_le t0.value_usd.c s.value_usd.c
        have hb2 : (t0.value_usd.c + s.value_usd.c).natAbs < 10 ^ ctxPrec := by omega
        have hmv : (t0.merge s).value_usd
            = { c := t0.value_usd.c + s.value_usd.c, e := e0 } :=
          Dec.add_same_exp t0.value_usd s.value_usd e0 het0 Hs hb2
        refine ⟨?_, ?_, ?_⟩
        · intro t ht
          simp only [upsert, hk, if_true] at ht
          rcases List.mem_cons.mp ht with h1 | h2
          · subst h1; rw [hmv]
          · exact He t (List.mem_cons_of_mem t0 h2)
        · simp only [upsert, hk, if_true, totalC_cons, hmv, absC_cons] at *
          omega
        · simp only [upsert, hk, if_true, totalC_cons, hmv, absC_cons] at *
          omega
      · have hbr : absC rest + s.value_usd.c.natAbs < 10 ^ ctxPrec := by
          rw [absC_cons] at Hb; omega
        obtain ⟨ihe, iht, iha⟩ :=
          ih (fun t ht => He t (List.mem_cons_of_mem t0 ht)) hbr
        refine ⟨?_, ?_, ?_⟩
        · intro t ht
          simp only [upsert, hk, if_false] at ht
          rcases List.mem_cons.mp ht with h1 | h2
          · subst h1; exact het0
          · exact ihe t h2
        · simp only [upsert, hk, if_false, totalC_cons, iht]
          omega
        · simp only [upsert, hk, if_false, absC_cons] at *
          omega

theorem group_exact (e0 : Int) (l : List Stock) :
    ∀ acc : List Stock, (∀ t ∈ acc, t.value_usd.e = e0) →
    (∀ s ∈ l, s.value_usd.e = e0) →
    absC acc + absC l < 10 ^ ctxPrec →
    (∀ t ∈ l.foldl upsert acc, t.value_usd.e = e0) ∧
    totalC (l.foldl upsert acc) = totalC acc + totalC l ∧
    absC (l.foldl upsert acc) ≤ absC acc + absC l := by
  induction l with
  | nil => intro acc He _ _; exact ⟨He, by simp [totalC], by simp [absC]⟩
  | cons s rest ih =>
      intro acc He Hel Hb
      have hs : s.value_usd.e = e0 := Hel s (List.mem_cons_self s rest)
      have hbu : absC acc + s.value_usd.c.natAbs < 10 ^ ctxPrec := by
        rw [absC_cons] at Hb; omega
      obtain ⟨ue, ut, ua⟩ := upsert_exact e0 acc s He hs hbu
      have hbr : absC (upsert acc s) + absC rest < 10 ^ ctxPrec := by
        rw [absC_cons] at Hb; omega
      obtain ⟨ge, gt2, ga⟩ :=
        ih (upsert acc s) ue (fun t ht => Hel t (List.mem_cons_of_mem s ht)) hbr
      refine ⟨?_, ?_, ?_⟩
      · simpa [List.foldl_cons] using ge
      · rw [List.foldl_cons, gt2, ut, totalC_cons]
        omega
      · rw [List.foldl_cons] at *
        rw [absC_cons]
        omega

theorem fold_add_exact (e0 : Int) (l : List Stock) :
    ∀ p : Int, (∀ s ∈ l, s.value_usd.e = e0) →
    p.natAbs + absC l < 10 ^ ctxPrec →
    l.foldl (fun acc s => Dec.add acc s.value_usd) { c := p, e := e0 }
      = { c := p + totalC l, e := e0 } := by
  induction l with
  | nil => intro p _ _; simp [totalC]
  | cons s rest ih =>
      intro p Hel Hb
      have hs : s.value_usd.e = e0 := Hel s (List.mem_cons_self s rest)
      have htri := Int.natAbs_add_le p s.value_usd.c
      have hb1 : (p + s.value_usd.c).natAbs < 10 ^ ctxPrec := by
        rw [absC_cons] at Hb; omega
      have hstep : Dec.add { c := p, e := e0 } s.value_usd
          = { c := p + s.value_usd.c, e := e0 } :=
        Dec.add_same_exp _ s.value_usd e0 rfl hs hb1
      have hbr : (p + s.value_usd.c).natAbs + absC rest < 10 ^ ctxPrec := by
        rw [absC_cons] at Hb; omega
      rw [List.foldl_cons, hstep,
        ih (p + s.value_usd.c) (fun t ht => Hel t (List.mem_cons_of_mem s ht)) hbr,
        totalC_cons]
      congr 1
      omega

theorem total_value_exact_of_cons (e0 : Int) (he0 : e0 ≤ 0) (s : Stock)
    (rest : List Stock) (He : ∀ t ∈ s :: rest, t.value_usd.e = e0)
    (Hb : absC (s :: rest) < 10 ^ ctxPrec) :
    total_value (s :: rest) = { c := totalC (s :: rest), e := e0 } := by
  have hs : s.value_usd.e = e0 := He s (List.mem_cons_self s rest)
  have hbs : s.value_usd.c.natAbs < 10 ^ ctxPrec := by
    rw [absC_cons] at Hb; omega
  have hstart : Dec.add { c := 0, e := 0 } s.value_usd
      = { c := s.value_usd.c, e := e0 } :=
    Dec.add_zero_start s.value_usd e0 hs he0 hbs
  have hbr : (s.value_usd.c).natAbs + absC rest < 10 ^ ctxPrec := by
    rw [absC_cons] at Hb; omega
  rw [total_value, List.foldl_cons, hstart,
    fold_add_exact e0 rest s.value_usd.c
      (fun t ht => He t (List.mem_cons_of_mem s ht)) hbr,
    totalC_cons]

theorem upsert_ne_nil (acc : List Stock) (s : Stock) : upsert acc s ≠ [] := by
  cases acc with
  | nil => simp [upsert]
  | cons t rest =>
      by_cases hk : t.key = s.key
      · simp [upsert, hk]
      · simp [upsert, hk]

theorem foldl_upsert_ne_nil (l : List Stock) :
    ∀ acc : List Stock, acc ≠ [] → l.foldl upsert acc ≠ [] := by
  induction l with
  | nil => intro acc h; simpa using h
  | cons s rest ih =>
      intro acc _
      rw [List.foldl_cons]
      exact ih (upsert acc s) (upsert_ne_nil acc s)

/- Claim theorems. -/

/-- C2: with a cache entry present and the conditional GET raising a
transport error, cached_get returns the stale-fallback response built from
the cached body whenever the entry's age (now minus stored_at) is at most
the configured TTL, propagates the failure whenever the age is at least
TTL + 1, and always uses the cached body when no TTL is configured. -/
theorem c2_ttl_boundary (net : Headers → NetResult) (now : Int) (url : String)
    (extra : Headers) (entry : CacheEntry)
    (hnet : net (condHeaders entry.meta extra) = NetResult.exn) :
    cached_get net now url none extra (some entry)
      = Except.ok { resp := build_response_from_cache entry.meta entry.data
                    cacheAfter := some entry } ∧
    (∀ t : Int, now - entry.meta.stored_at ≤ t →
      cached_get net now url (some t) extra (some entry)
        = Except.ok { resp := build_response_from_cache entry.meta entry.data
                      cacheAfter := some entry }) ∧
    (∀ t : Int, t + 1 ≤ now - entry.meta.stored_at →
      cached_get net now url (some t) extra (some entry) = Except.error ()) ∧
    (build_response_from_cache entry.meta entry.data).content = entry.data := by
  refine ⟨?_, ?_, ?_, rfl⟩
  · simp [cached_get, hnet]
  · intro t ht
    simp [cached_get, hnet, ht]
  · intro t ht
    have hgt : ¬ (now - entry.meta.stored_at ≤ t) := by omega
    simp [cached_get, hnet, hgt]

/-- C2 witness: entry of age 3 with ttl 3 is served from cache; with ttl 2
the failure propagates; with no ttl the cached body is served. -/
theorem c2_ttl_boundary_witness :
    cached_get netExn 103 "https://example.org/x" none [] (some entryA)
      = Except.ok { resp := build_response_from_cache entryA.meta entryA.data
                    cacheAfter := some entryA } ∧
    cached_get netExn 103 "https://example.org/x" (some 3) [] (some entryA)
      = Except.ok { resp := build_response_from_cache entryA.meta entryA.data
                    cacheAfter := some entryA } ∧
    cached_get netExn 103 "https://example.org/x" (some 2) [] (some entryA)
      = Except.error () := by
  have h := c2_ttl_boundary netExn 103 "https://example.org/x" [] entryA rfl
  exact ⟨h.1, h.2.1 3 (by decide), h.2.2.1 2 (by decide)⟩

/-- C3: with a cache entry present, a 304 reply to the conditional GET makes
cached_get return a response whose body is byte-identical to the cached body,
and the cache entry is left unchanged (no store on the 304 path). -/
theorem c3_304_serves_cached_body (net : Headers → NetResult) (now : Int)
    (url : String) (ttl : Option Int) (extra : Headers) (entry : CacheEntry)
    (resp : HTTPResponse)
    (hnet : net (condHeaders entry.meta extra) = NetResult.ok resp)
    (h304 : resp.status_code = 304) :
    cached_get net now url ttl extra (some entry)
      = Except.ok { resp := build_response_from_cache entry.meta entry.data
                    cacheAfter := some entry } ∧
    (build_response_from_cache entry.meta entry.data).content = entry.data := by
  refine ⟨?_, rfl⟩
  simp [cached_get, hnet, h304]

/-- C3 witness: a 304 answer for the concrete entry returns the cached bytes
[1, 2, 3] and leaves the entry in place. -/
theorem c3_304_serves_cached_body_witness :
    cached_get net304 200 "https://example.org/x" (some 60) [] (some entryA)
      = Except.ok { resp := build_response_from_cache entryA.meta entryA.data
                    cacheAfter := some entryA } ∧
    (build_response_from_cache entryA.meta entryA.data).content = entryA.data :=
  c3_304_serves_cached_body net304 200 "https://example.org/x" (some 60) [] entryA
    { status_code := 304, headers := [], content := [], from_cache := false } rfl rfl

/-- C4 counterexample: _sanitize_headers pops only six literal spellings, so
a stored metadata key in another capitalization, here CONTENT-ENCODING,
survives sanitization even though it is case-insensitively equal to
Content-Encoding; the claim fails as stated. -/
theorem c4_counterexample :
    sanitize_headers [("CONTENT-ENCODING", "gzip")] = [("CONTENT-ENCODING", "gzip")] ∧
    strLower "CONTENT-ENCODING" = strLower "Content-Encoding" ∧
    dictGet (sanitize_headers [("CONTENT-ENCODING", "gzip")]) "CONTENT-ENCODING"
      = some "gzip" := by
  refine ⟨rfl, by decide, rfl⟩

/-- C4 amended: when a response is reconstructed from cache, the returned
headers contain no key exactly equal to one of the six spellings popped by
_sanitize_headers (the two standard capitalizations of Content-Encoding,
Transfer-Encoding and Content-Length); other capitalizations are not
stripped.  The stored map is a Python dict, so its keys are unique. -/
theorem c4_sanitize_exact_keys (h : Headers)
    (hnd : (h.map Prod.fst).Nodup) :
    ∀ k ∈ sanitizeKeys, dictGet (sanitize_headers h) k = none := by
  intro k hk
  exact dictGet_foldl_pop_mem sanitizeKeys h k hnd hk

/-- C4 witness: the Content-Encoding entry of the concrete stored header map
is gone after sanitization. -/
theorem c4_sanitize_exact_keys_witness :
    dictGet (sanitize_headers [("content-encoding", "gzip"), ("etag", "E")])
      "content-encoding" = none :=
  c4_sanitize_exact_keys [("content-encoding", "gzip"), ("etag", "E")]
    (by decide) "content-encoding" (by decide)

/-- C5 counterexample: with no cache entry for the URL, a transport error in
the unconditional GET propagates out of cached_get instead of being returned
as a failed result; the claim fails as stated. -/
theorem c5_counterexample :
    cached_get netExn 0 "https://example.org/x" none [] none = Except.error () := rfl

/-- C5 amended: when no cache entry exists, cached_get issues an
unconditional GET; on status 200 it stores the entry and returns the fresh
body; on any other status it returns that response to the caller without
raising and without storing; on a transport error the exception propagates
to the caller (and nothing is stored). -/
theorem c5_no_cache_behaviour (net : Headers → NetResult) (now : Int)
    (url : String) (ttl : Option Int) (extra : Headers) (resp : HTTPResponse)
    (hnet : net extra = NetResult.ok resp) :
    (resp.status_code = 200 →
      cached_get net now url ttl extra none
        = Except.ok { resp := resp, cacheAfter := some (storeEntry now url resp) }) ∧
    (resp.status_code ≠ 200 →
      cached_get net now url ttl extra none
        = Except.ok { resp := resp, cacheAfter := none }) ∧
    (∀ net2 : Headers → NetResult, net2 extra = NetResult.exn →
      cached_get net2 now url ttl extra none = Except.error ()) := by
  refine ⟨?_, ?_, ?_⟩
  · intro h200
    simp [cached_get, hnet, h200]
  · intro hneq
    simp [cached_get, hnet, hneq]
  · intro net2 hnet2
    simp [cached_get, hnet2]

/-- C5 witness: a 404 answer on an empty cache is returned as-is with nothing
stored, and a transport error on an empty cache propagates. -/
theorem c5_no_cache_behaviour_witness :
    cached_get net404 0 "https://example.org/x" none [] none
      = Except.ok { resp := { status_code := 404, headers := [], content := []
                              from_cache := false }
                    cacheAfter := none } ∧
    cached_get netExn 0 "https://example.org/x" none [] none = Except.error () := by
  have h := c5_no_cache_behaviour net404 0 "https://example.org/x" none []
    { status_code := 404, headers := [], content := [], from_cache := false } rfl
  exact ⟨h.2.1 (by decide), h.2.2 netExn rfl⟩

/-- C7: the conditional GET issued by cached_get carries If-None-Match equal
to the stored etag and If-Modified-Since equal to the stored last_modified
whenever those are present (and non-empty, Python truthiness), for every
caller-supplied extra-header map — caller headers do not override the
conditional headers.  The last conjunct observes, through cached_get run
against an echoing network, that the headers sent are exactly condHeaders. -/
theorem c7_conditional_headers_win (entry : CacheEntry) (extra : Headers)
    (now : Int) (url : String) (ttl : Option Int) :
    (∀ e, entry.meta.etag = some e → e ≠ "" →
      dictGet (condHeaders entry.meta extra) "If-None-Match" = some e) ∧
    (∀ lm, entry.meta.last_modified = some lm → lm ≠ "" →
      dictGet (condHeaders entry.meta extra) "If-Modified-Since" = some lm) ∧
    cached_get netEcho now url ttl extra (some entry)
      = Except.ok { resp := { status_code := 204
                              headers := condHeaders entry.meta extra
                              content := []
                              from_cache := false }
                    cacheAfter := some entry } := by
  refine ⟨?_, ?_, ?_⟩
  · intro e he hne
    cases hlm : entry.meta.last_modified with
    | none => simp [condHeaders, he, hne, hlm, dictGet_dictSet_self]
    | some lm =>
        by_cases hlme : lm = ""
        · simp [condHeaders, he, hne, hlm, hlme, dictGet_dictSet_self]
        · simp only [condHeaders, he, hlm]
          rw [if_neg hne, if_neg hlme,
            dictGet_dictSet_ne _ _ _ _ (by decide), dictGet_dictSet_self]
  · intro lm hlm hne
    simp only [condHeaders, hlm]
    rw [if_neg hne]
    exact dictGet_dictSet_self _ "If-Modified-Since" lm
  · simp [cached_get, netEcho]

/-- C7 witness: for the concrete entry (etag E) and a caller map that tries
to set If-None-Match itself, the issued headers carry If-None-Match = E. -/
theorem c7_conditional_headers_win_witness :
    dictGet (condHeaders entryA.meta [("If-None-Match", "CALLER")]) "If-None-Match"
      = some "E" ∧
    cached_get netEcho 0 "https://example.org/x" none
        [("If-None-Match", "CALLER")] (some entryA)
      = Except.ok { resp := { status_code := 204
                              headers := condHeaders entryA.meta
                                [("If-None-Match", "CALLER")]
                              content := []
                              from_cache := false }
                    cacheAfter := some entryA } := by
  have h := c7_conditional_headers_win entryA [("If-None-Match", "CALLER")]
    0 "https://example.org/x" none
  exact ⟨h.1 "E" rfl (by decide), h.2.2⟩

/-- C6: on each attempt of _fetch_one's retry loop, a connect/read timeout or
a 5xx status with retry budget remaining is retryable after a backoff delay
of backoff_base * 2 ^ attempt (attempt indices from 0), while a 4xx status or
a successful 200 completion is terminal: the step returns a record at once
and spends no backoff delay. -/
theorem c6_retry_classification
    (parse : String → String → Option String × Option String × String)
    (netloc : String → String) (link : String) (mr : Nat) (bb : ℚ)
    (attempt : Nat) :
    (attempt < mr - 1 →
      fetchStep parse netloc link mr bb attempt AttemptOutcome.timeout
        = StepResult.retryAfter (bb * 2 ^ attempt)) ∧
    (∀ status ct body, 500 ≤ status → status < 600 → attempt < mr - 1 →
      fetchStep parse netloc link mr bb attempt (AttemptOutcome.resp status ct body)
        = StepResult.retryAfter (bb * 2 ^ attempt)) ∧
    (∀ status ct body, 400 ≤ status → status < 500 →
      fetchStep parse netloc link mr bb attempt (AttemptOutcome.resp status ct body)
        = StepResult.done (failRecord netloc link)) ∧
    (∀ ct body, ∃ rec,
      fetchStep parse netloc link mr bb attempt (AttemptOutcome.resp 200 ct body)
        = StepResult.done rec) := by
  refine ⟨?_, ?_, ?_, ?_⟩
  · intro hlt
    simp [fetchStep, hlt]
  · intro status ct body h5 h6 hlt
    have hne : status ≠ 200 := by omega
    simp [fetchStep, hne, h5, h6, hlt]
  · intro status ct body h4 h5
    have hne : status ≠ 200 := by omega
    have hno : ¬ (500 ≤ status ∧ status < 600 ∧ attempt < mr - 1) := by omega
    simp only [fetchStep]
    rw [if_pos hne, if_neg hno]
  · intro ct body
    simp only [fetchStep]
    rw [if_neg (by simp : ¬ (200 : Nat) ≠ 200)]
    by_cases hs : ¬ strContains (strLower ct) "html" ∧ ¬ strStartsWith (lstrip body) "<"
    · exact ⟨failRecord netloc link, by rw [if_pos hs]⟩
    · refine ⟨{ url := link, clean_text := (parse body link).1
                title := (parse body link).2.1
                domain := (parse body link).2.2 }, ?_⟩
      rw [if_neg hs]

/-- C6 witness: with max_retries 3 and backoff_base 1, attempt 0 of a timeout
and of a 503 retries after 1 * 2 ^ 0; a 404 and a 200 are terminal. -/
theorem c6_retry_classification_witness :
    fetchStep parse0 netloc0 "a" 3 1 0 AttemptOutcome.timeout
      = StepResult.retryAfter (1 * 2 ^ 0) ∧
    fetchStep parse0 netloc0 "a" 3 1 0 (AttemptOutcome.resp 503 "" "")
      = StepResult.retryAfter (1 * 2 ^ 0) ∧
    fetchStep parse0 netloc0 "a" 3 1 0 (AttemptOutcome.resp 404 "" "")
      = StepResult.done (failRecord netloc0 "a") ∧
    (∃ rec, fetchStep parse0 netloc0 "a" 3 1 0 (AttemptOutcome.resp 200 "text/html" "x")
      = StepResult.done rec) := by
  have h := c6_retry_classification parse0 netloc0 "a" 3 1 0
  exact ⟨h.1 (by decide), h.2.1 503 "" "" (by decide) (by decide) (by decide),
    h.2.2.1 404 "" "" (by decide) (by decide), h.2.2.2 "text/html" "x"⟩

/-- C1 counterexample: crawling two URLs where URL b deterministically
answers 500 on every attempt yields only one merged record, not one per
input URL — the failed item is omitted from load_news_async's output rather
than kept as a record with absent text; the claim fails as stated. -/
theorem c1_counterexample :
    items0.length = 2 ∧
    (load_news parse0 netloc0 net0 items0).length = 1 ∧
    (load_news parse0 netloc0 net0 items0).length ≠ items0.length := by
  refine ⟨rfl, rfl, ?_⟩
  have h1 : (load_news parse0 netloc0 net0 items0).length = 1 := rfl
  have h2 : items0.length = 2 := rfl
  rw [h1, h2]
  decide

/-- C1 amended: the fetch stage of load_news_async produces exactly one
record per input URL and no exception propagates past the crawl call (every
_fetch_one returns a record), but the returned aggregated list omits failed
or textless items: its length is the number of fetched records that carry
extracted text. -/
theorem c1_one_record_per_url
    (parse : String → String → Option String × Option String × String)
    (netloc : String → String) (net : String → Nat → AttemptOutcome)
    (items : List NewsItem) :
    (gatherResults parse netloc net items).length = items.length ∧
    (∀ r ∈ gatherResults parse netloc net items, r.isSome) ∧
    (load_news parse netloc net items).length
      = ((gatherResults parse netloc net items).filterMap id
          |>.filter (fun rec => rec.clean_text.isSome)).length := by
  refine ⟨?_, ?_, ?_⟩
  · simp [gatherResults]
  · intro r hr
    simp only [gatherResults, List.mem_map] at hr
    obtain ⟨u, hu, hr2⟩ := hr
    subst hr2
    exact fetch_one_isSome parse netloc (net u) u 3 1 (by omega)
  · simpa [load_news] using
      filterMap_merge_length items (gatherResults parse netloc net items)

/-- C1 amended witness: on the concrete two-URL crawl, the fetch stage has
two records, all present, and the output keeps exactly the one with text. -/
theorem c1_one_record_per_url_witness :
    (gatherResults parse0 netloc0 net0 items0).length = items0.length ∧
    (∀ r ∈ gatherResults parse0 netloc0 net0 items0, r.isSome) ∧
    (load_news parse0 netloc0 net0 items0).length
      = ((gatherResults parse0 netloc0 net0 items0).filterMap id
          |>.filter (fun rec => rec.clean_text.isSome)).length :=
  c1_one_record_per_url parse0 netloc0 net0 items0

/-- C8: a cache entry is observably all-or-nothing: _load returns an entry
exactly when the metadata record and the body record are both present and
readable, and _store writes both records to temporary files and installs
each with an atomic rename — body first, metadata last — so that at every
intermediate state of the store sequence a present metadata file is
accompanied by a present body file, and afterwards _load sees the new entry. -/
theorem c8_store_atomicity (fs : CacheFS) (m : CacheMeta) (d : Bytes)
    (hinv : fs.metaFile.isSome → fs.dataFile.isSome) :
    (∀ m2 d2, loadEntry fs = some (m2, d2) ↔
      fs.metaFile = some (some m2) ∧ fs.dataFile = some (some d2)) ∧
    ((storeStep1 fs d).metaFile.isSome → (storeStep1 fs d).dataFile.isSome) ∧
    ((storeStep2 (storeStep1 fs d) m).metaFile.isSome →
      (storeStep2 (storeStep1 fs d) m).dataFile.isSome) ∧
    ((storeStep3 (storeStep2 (storeStep1 fs d) m)).metaFile.isSome →
      (storeStep3 (storeStep2 (storeStep1 fs d) m)).dataFile.isSome) ∧
    ((storeFS fs m d).metaFile.isSome → (storeFS fs m d).dataFile.isSome) ∧
    loadEntry (storeFS fs m d) = some (m, d) := by
  refine ⟨?_, ?_, ?_, ?_, ?_, ?_⟩
  · intro m2 d2
    constructor
    · intro hload
      cases hm : fs.metaFile with
      | none => simp [loadEntry, hm] at hload
      | some mc =>
          cases hd : fs.dataFile with
          | none => simp [loadEntry, hm, hd] at hload
          | some dc =>
              cases mc with
              | none => simp [loadEntry, hm, hd] at hload
              | some mv =>
                  cases dc with
                  | none => simp [loadEntry, hm, hd] at hload
                  | some dv =>
                      simp only [loadEntry, hm, hd, Option.some.injEq] at hload
                      have h1 : mv = m2 := congrArg Prod.fst hload
                      have h2 : dv = d2 := congrArg Prod.snd hload
                      subst h1
                      subst h2
                      exact ⟨rfl, rfl⟩
    · intro hb
      simp [loadEntry, hb.1, hb.2]
  · intro h1
    exact hinv h1
  · intro h1
    exact hinv h1
  · intro _
    simp [storeStep3, storeStep2, storeStep1]
  · intro _
    simp [storeFS, storeStep4, storeStep3, storeStep2, storeStep1]
  · simp [storeFS, storeStep4, storeStep3, storeStep2, storeStep1, loadEntry]

/-- C8 witness: storing metadata metaA with body [7] into an empty cache-key
filesystem keeps the all-or-nothing invariant at every step and ends with
_load returning the new entry. -/
theorem c8_store_atomicity_witness :
    ((storeStep3 (storeStep2 (storeStep1 fs0 [7]) metaA)).metaFile.isSome →
      (storeStep3 (storeStep2 (storeStep1 fs0 [7]) metaA)).dataFile.isSome) ∧
    loadEntry (storeFS fs0 metaA [7]) = some (metaA, [7]) := by
  have h := c8_store_atomicity fs0 metaA [7] (by intro hcon; cases hcon)
  exact ⟨h.2.2.2.1, h.2.2.2.2.2⟩

/-- C10 counterexample: under the default 28-digit Decimal context the
equality fails.  For the positions [A:1E+28, B:1, A:-1E+28], total_value
of the ungrouped list rounds 1E+28 + 1 back to 1E+28 and then cancels,
giving 0, while group_and_merge first cancels the two A positions exactly
and the grouped total is 1; the claim fails as stated. -/
theorem c10_counterexample :
    Dec.sameVal (total_value stocks10) { c := 0, e := 0 } = true ∧
    Dec.sameVal (total_value (group_and_merge stocks10)) { c := 1, e := 0 } = true ∧
    Dec.sameVal (total_value (group_and_merge stocks10)) (total_value stocks10) = false := by
  refine ⟨by decide, by decide, by decide⟩

/-- C10 amended: merging positions with the same (issuer, titleOfClass,
cusip) key sums their value_usd fields, and grouping preserves the exact
total portfolio value whenever no context rounding occurs: if all values
share one exponent e0 ≤ 0 (in particular, all integer-valued as 13F dollar
amounts are) and the sum of their coefficient magnitudes stays below
10 ^ 28, then total_value (group_and_merge stocks) = total_value stocks;
with values outside that range, the default 28-digit context can round
intermediate sums and change the total. -/
theorem c10_total_preserved_without_rounding (stocks : List Stock)
    (e0 : Int) (he0 : e0 ≤ 0) (He : ∀ s ∈ stocks, s.value_usd.e = e0)
    (Hb : absC stocks < 10 ^ ctxPrec) :
    total_value (group_and_merge stocks) = total_value stocks := by
  cases stocks with
  | nil => rfl
  | cons s rest =>
      obtain ⟨ge, gt2, ga⟩ := group_exact e0 (s :: rest) []
        (by intro t ht; cases ht) He (by simpa [absC] using Hb)
      have hgb : absC ((s :: rest).foldl upsert []) < 10 ^ ctxPrec := by
        have h0 : absC ([] : List Stock) = 0 := by simp [absC]
        omega
      have hgne : (s :: rest).foldl upsert [] ≠ [] := by
        rw [List.foldl_cons]
        exact foldl_upsert_ne_nil rest (upsert [] s) (upsert_ne_nil [] s)
      obtain ⟨g0, grest, hg⟩ := List.exists_cons_of_ne_nil hgne
      have hleft : total_value (group_and_merge (s :: rest))
          = { c := totalC (group_and_merge (s :: rest)), e := e0 } := by
        rw [group_and_merge, hg]
        exact total_value_exact_of_cons e0 he0 g0 grest
          (by rw [← hg]; exact ge) (by rw [← hg]; exact hgb)
      have hright : total_value (s :: rest) = { c := totalC (s :: rest), e := e0 } :=
        total_value_exact_of_cons e0 he0 s rest He Hb
      rw [hleft, hright, group_and_merge, gt2]
      have h0 : totalC ([] : List Stock) = 0 := by simp [totalC]
      congr 1
      omega

/-- C10 amended witness: three integer-valued positions, two sharing a key,
where grouping provably preserves the total. -/
theorem c10_total_preserved_without_rounding_witness :
    total_value (group_and_merge stocksW) = total_value stocksW :=
  c10_total_preserved_without_rounding stocksW 0 (by decide)
    (by decide) (by decide)

end Forecaster
